import Mathlib

/-!
Verification of the analytical core of the Passenger Data Analysis Dashboard
(`app.py`): data loading, temporal aggregation, route/transfer ranking,
z-score anomaly detection, regional aggregation and the sidebar filter.

The pandas dataframe is embedded as a list of records; numeric columns are
embedded as exact rationals (the source computes with machine floats; the
embedding uses exact arithmetic, which is the standard idealisation).
`groupby(key)[col].sum()` is embedded as an order-preserving association
list with keys sorted ascending, matching pandas' sorted group keys.
-/

namespace PassengerDash

/-- A parsed date-time, as produced by `pd.to_datetime`: the components that
the source extracts via the `.dt` accessors (`year`, `month`, `day`, `hour`)
plus minutes.  `dt.date` keeps the `(year, month, day)` triple. -/
structure Timestamp where
  year : ℤ
  month : ℕ
  day : ℕ
  hour : ℕ
  minute : ℕ
deriving DecidableEq

/-- Calendar dates compare lexicographically by (year, month, day),
mirroring chronological order of `datetime.date` values. -/
abbrev Date := Lex (ℤ × Lex (ℕ × ℕ))

/-- The date component of a timestamp (`Timestamp.dt.date` in the source):
time-of-day is dropped. -/
def Timestamp.date (ts : Timestamp) : Date :=
  toLex (ts.year, toLex (ts.month, ts.day))

/-- One row of the loaded dataframe.  `departure_time` and `arrival_time`
are `Option` because `pd.to_datetime(..., errors='coerce')` turns
unparseable entries into `NaT` (here `none`).  Identifier columns
(`Route_ID`, station ids, `Region`) are embedded as abstract identifiers. -/
structure Record where
  timestamp : Timestamp
  departure_time : Option Timestamp
  arrival_time : Option Timestamp
  passenger_count : ℚ
  route_id : ℕ
  entry_station_id : ℕ
  exit_station_id : ℕ
  region : ℕ
  total_fees : ℚ
deriving DecidableEq

/-- The loaded dataframe: an ordered sequence of rows. -/
abbrev Table := List Record

/-! ### Grouped sums (`df.groupby(key)[col].sum()`)

pandas returns a series indexed by the distinct keys in ascending order,
each mapped to the sum of the column over the rows with that key.  We build
it by inserting each row into an association list kept sorted by key. -/

/-- Insert value `v` for key `k` into an association list sorted ascending
by key, adding `v` to the entry for `k` when one is present. -/
def insertAdd {K : Type} [LinearOrder K] (k : K) (v : ℚ) :
    List (K × ℚ) → List (K × ℚ)
  | [] => [(k, v)]
  | (k', w) :: l =>
    if k < k' then (k, v) :: (k', w) :: l
    else if k = k' then (k, v + w) :: l
    else (k', w) :: insertAdd k v l

/-- `groupSum key val rows` is `rows.groupby(key)[val].sum()`: an ascending
association list from each distinct key to the sum of `val` over the rows
with that key. -/
def groupSum {α K : Type} [LinearOrder K] (key : α → K) (val : α → ℚ) :
    List α → List (K × ℚ)
  | [] => []
  | a :: l => insertAdd (key a) (val a) (groupSum key val l)

/-! ### Descending sort by value and `head(n)`

`Series.sort_values(ascending=False)` orders entries by decreasing value;
tie order among equal values is implementation-defined in pandas and the
embedding fixes the deterministic stable choice (first-seen group wins).
`Series.head(n)` keeps the first `n` entries for `n ≥ 0` and all but the
last `|n|` entries for negative `n`. -/

/-- Insert an entry into a list sorted by decreasing value, after all
entries with value at least as large (stable). -/
def insertDesc {K : Type} (p : K × ℚ) : List (K × ℚ) → List (K × ℚ)
  | [] => [p]
  | q :: l => if q.2 < p.2 then p :: q :: l else q :: insertDesc p l

/-- Stable sort by decreasing value (`sort_values(ascending=False)`). -/
def sortDesc {K : Type} : List (K × ℚ) → List (K × ℚ)
  | [] => []
  | p :: l => insertDesc p (sortDesc l)

/-- `Series.head(n)` for a possibly negative integer `n`. -/
def seriesHead {K : Type} (n : ℤ) (l : List (K × ℚ)) : List (K × ℚ) :=
  if 0 ≤ n then l.take n.toNat else l.take (l.length - (-n).toNat)

/-! ### `PeakCongestionAnalysis` (temporal aggregation) -/

/-- `df.groupby(df['Timestamp'].dt.hour)['passenger_count'].sum()`. -/
def hourly_analysis (df : Table) : List (ℕ × ℚ) :=
  groupSum (fun r => r.timestamp.hour) (·.passenger_count) df

/-- `df.groupby(df['Timestamp'].dt.day)['passenger_count'].sum()`
(day of month). -/
def daily_analysis (df : Table) : List (ℕ × ℚ) :=
  groupSum (fun r => r.timestamp.day) (·.passenger_count) df

/-- `df.groupby(df['Timestamp'].dt.month)['passenger_count'].sum()`. -/
def monthly_analysis (df : Table) : List (ℕ × ℚ) :=
  groupSum (fun r => r.timestamp.month) (·.passenger_count) df

/-- `df.groupby(df['Timestamp'].dt.year)['passenger_count'].sum()`. -/
def yearly_analysis (df : Table) : List (ℤ × ℚ) :=
  groupSum (fun r => r.timestamp.year) (·.passenger_count) df

/-! ### `PopularRouteAnalysis` -/

/-- The full route ranking
`df.groupby('Route_ID')['passenger_count'].sum().sort_values(ascending=False)`. -/
def routeRanking (df : Table) : List (ℕ × ℚ) :=
  sortDesc (groupSum (·.route_id) (·.passenger_count) df)

/-- `top_routes(n)` truncates the route ranking with `head(n)`; the source
default is `n=5`. -/
def top_routes (df : Table) (n : ℤ := 5) : List (ℕ × ℚ) :=
  seriesHead n (routeRanking df)

/-- `pd.concat([df['Entry_Station_ID'], df['Exit_Station_ID']])`: every
record contributes its entry station and its exit station, once each. -/
def stationStream (df : Table) : List ℕ :=
  df.map (·.entry_station_id) ++ df.map (·.exit_station_id)

/-- `transfers.value_counts()`: occurrence count per station, sorted by
decreasing count.  Counting is summing 1 per occurrence. -/
def transferCounts (df : Table) : List (ℕ × ℚ) :=
  sortDesc (groupSum (fun s => s) (fun _ => (1 : ℚ)) (stationStream df))

/-- `top_transfer_points(n)`; the source default is `n=5`. -/
def top_transfer_points (df : Table) (n : ℤ := 5) : List (ℕ × ℚ) :=
  seriesHead n (transferCounts df)

/-! ### `ServiceDisruptionDetection` -/

/-- `Series.mean()`: the sample mean. -/
def meanQ (l : List ℚ) : ℚ := l.sum / l.length

/-- `Series.std()` squared: the unbiased sample variance, with the `N-1`
denominator (pandas default `ddof=1`).  For `N ≤ 1` pandas yields `NaN`
(resp. an empty mean); here the division-by-zero convention yields `0`,
and `zFlag` below flags no day in exactly the same cases as the `NaN`
comparison semantics, so the observable anomaly set coincides. -/
def svarQ (l : List ℚ) : ℚ :=
  (l.map (fun x => (x - meanQ l) ^ 2)).sum / ((l.length : ℚ) - 1)

/-- The anomaly test `(x - mean).abs() > z_thresh * std` of the source,
in decidable square-free form: for `z ≥ 0` compare squares (equivalent to
comparing against `z * sqrt v`, see `zFlag_iff_real`); for `z < 0` the
right-hand side is negative unless `std = 0`, so the comparison holds iff
the variance is positive or the value differs from the mean. -/
def zFlag (m v z x : ℚ) : Bool :=
  if 0 ≤ z then decide (z ^ 2 * v < (x - m) ^ 2)
  else decide (0 < v ∨ x ≠ m)

/-- The daily totals
`df.groupby(df['Timestamp'].dt.date)['passenger_count'].sum()`:
passenger counts grouped by calendar date, ascending by date. -/
def daily_totals (df : Table) : List (Date × ℚ) :=
  groupSum (fun r => r.timestamp.date) (·.passenger_count) df

/-- `detect_anomalies(z_thresh)`: computes the daily totals, their mean and
unbiased standard deviation, and returns the sub-series of days whose total
deviates from the mean by more than `z_thresh` standard deviations,
together with the full daily series.  Source default `z_thresh=2.5`. -/
def detect_anomalies (df : Table) (z : ℚ := 5 / 2) :
    List (Date × ℚ) × List (Date × ℚ) :=
  let daily := daily_totals df
  let m := meanQ (daily.map Prod.snd)
  let v := svarQ (daily.map Prod.snd)
  (daily.filter (fun p => zFlag m v z p.2), daily)

/-! ### `RegionalPerformanceAnalysis` -/

/-- `df.groupby('Region')['passenger_count'].sum().sort_values(ascending=False)`. -/
def region_passenger_trends (df : Table) : List (ℕ × ℚ) :=
  sortDesc (groupSum (·.region) (·.passenger_count) df)

/-- `df.groupby('Region')['Total_Fees'].sum().sort_values(ascending=False)`. -/
def region_revenue_trends (df : Table) : List (ℕ × ℚ) :=
  sortDesc (groupSum (·.region) (·.total_fees) df)

/-! ### `FilterUI.apply_filters`

The widget supplies the selected region and route lists; the function
narrows the dataframe with `df[df['Region'].isin(regions)]` only when the
selection is non-empty (`if regions:`), then does the same for routes. -/

/-- The record-filtering core of `FilterUI.apply_filters`. -/
def apply_filters (df : Table) (regions routes : List ℕ) : Table :=
  let df1 := if regions = [] then df
             else df.filter (fun r => decide (r.region ∈ regions))
  if routes = [] then df1
  else df1.filter (fun r => decide (r.route_id ∈ routes))

/-! ### `DataLoader.load_data`

`pd.read_csv` has already split the input into rows; each raw time field
carries the result of attempting to parse it (`none` = missing or
unparseable).  `pd.to_datetime(df['Timestamp'])` is strict: any
unparseable entry raises, aborting the load with no partial table
(abstracted as `SchemaError`).  The two optional columns are parsed with
`errors='coerce'`: failures become `NaT` (`none`), never an error. -/

/-- The loader's fatal error (spec taxonomy `SchemaError`). -/
inductive SchemaError : Type
  | unparseableTimestamp : SchemaError
deriving DecidableEq

/-- A raw CSV row after `read_csv`: each date-time field holds the result
of attempting to parse its text. -/
structure RawRow where
  timestampRaw : Option Timestamp
  departureRaw : Option Timestamp
  arrivalRaw : Option Timestamp
  passenger_count : ℚ
  route_id : ℕ
  entry_station_id : ℕ
  exit_station_id : ℕ
  region : ℕ
  total_fees : ℚ
deriving DecidableEq

/-- Conversion of a raw row whose primary timestamp parsed: the lenient
fields keep their parse result verbatim (`none` = `NaT`). -/
def RawRow.toRecord (r : RawRow) (ts : Timestamp) : Record :=
  { timestamp := ts
    departure_time := r.departureRaw
    arrival_time := r.arrivalRaw
    passenger_count := r.passenger_count
    route_id := r.route_id
    entry_station_id := r.entry_station_id
    exit_station_id := r.exit_station_id
    region := r.region
    total_fees := r.total_fees }

/-- `DataLoader.load_data`: strict on the primary timestamp, lenient on
`departure_time` and `arrival_time`. -/
def load_data : List RawRow → Except SchemaError Table
  | [] => .ok []
  | r :: rs =>
    match r.timestampRaw with
    | none => .error .unparseableTimestamp
    | some ts =>
      match load_data rs with
      | .error e => .error e
      | .ok tbl => .ok (r.toRecord ts :: tbl)

/-- A record with the given timestamp pieces, passenger count, route,
entry/exit stations, region and fees (and no optional times); used for
concrete instances. -/
def mkRecord (y : ℤ) (mo d h : ℕ) (pc : ℚ) (route en ex reg : ℕ)
    (fees : ℚ) : Record :=
  { timestamp := ⟨y, mo, d, h, 0⟩
    departure_time := none
    arrival_time := none
    passenger_count := pc
    route_id := route
    entry_station_id := en
    exit_station_id := ex
    region := reg
    total_fees := fees }

/-! ### Lemmas about `insertAdd` and `groupSum` -/

/-- Placeholder timestamp for total extraction from an `Option` that is
known to be `some`. -/
def defaultStamp : Timestamp := ⟨0, 1, 1, 0, 0⟩

/-- The record a raw row becomes when the load succeeds. -/
def rowRecord (r : RawRow) : Record :=
  r.toRecord (r.timestampRaw.getD defaultStamp)

/-- A raw row with the given parse results for the three time fields. -/
def mkRawRow (ts dep arr : Option Timestamp) : RawRow :=
  { timestampRaw := ts
    departureRaw := dep
    arrivalRaw := arr
    passenger_count := 1
    route_id := 1
    entry_station_id := 1
    exit_station_id := 2
    region := 1
    total_fees := 0 }

/-- The records `[(R1,10),(R2,50),(R1,5)]` of the spec's `top_routes`
example. -/
def tableRoutes : Table :=
  [mkRecord 2024 1 1 8 10 1 1 2 1 0,
   mkRecord 2024 1 1 9 50 2 1 2 1 0,
   mkRecord 2024 1 1 10 5 1 1 2 1 0]

/-- One record whose entry and exit station coincide (station 7). -/
def tableLoop : Table := [mkRecord 2024 1 1 8 10 1 7 7 1 0]

/-- Two records on the same calendar day. -/
def tableOneDay : Table :=
  [mkRecord 2024 1 1 8 100 1 1 2 1 0,
   mkRecord 2024 1 1 12 50 1 1 2 1 0]

/-- Three records spanning exactly two calendar days. -/
def tableTwoDays : Table :=
  [mkRecord 2024 1 1 8 100 1 1 2 1 0,
   mkRecord 2024 1 2 8 105 1 1 2 1 0,
   mkRecord 2024 1 2 12 40 1 1 2 1 0]

/-- A record in region 1 on route 1. -/
def recA : Record := mkRecord 2024 1 1 8 10 1 1 2 1 3

/-- Two records in regions 1 and 2 on routes 1 and 2. -/
def tableRegions : Table :=
  [recA, mkRecord 2024 1 1 9 20 2 3 4 2 7]

/-- The spec's anomaly example: daily totals 100, 105 and 500 on three
consecutive days. -/
def tableAnomaly : Table :=
  [mkRecord 2024 1 1 8 100 1 1 2 1 0,
   mkRecord 2024 1 2 8 105 1 1 2 1 0,
   mkRecord 2024 1 3 8 500 1 1 2 1 0]

/-- Value stored for key `k` in an association list, if any. -/
def lookupQ {K : Type} [DecidableEq K] (k : K) : List (K × ℚ) → Option ℚ
  | [] => none
  | (k', v) :: l => if k = k' then some v else lookupQ k l

/-- The sum of the matching rows: what the group of key `k` must total. -/
def matchSum {α K : Type} [DecidableEq K] (key : α → K) (val : α → ℚ)
    (k : K) (t : List α) : ℚ :=
  ((t.filter (fun a => decide (key a = k))).map val).sum

section GroupSumLemmas

variable {α K : Type} [LinearOrder K]

theorem insertAdd_cons (k k' : K) (v w : ℚ) (l : List (K × ℚ)) :
    insertAdd k v ((k', w) :: l) =
      if k < k' then (k, v) :: (k', w) :: l
      else if k = k' then (k, v + w) :: l
      else (k', w) :: insertAdd k v l := rfl

theorem insertAdd_cons_lt {k k' : K} (h : k < k') (v w : ℚ)
    (l : List (K × ℚ)) :
    insertAdd k v ((k', w) :: l) = (k, v) :: (k', w) :: l := by
  rw [insertAdd_cons, if_pos h]

theorem insertAdd_cons_eq (k : K) (v w : ℚ) (l : List (K × ℚ)) :
    insertAdd k v ((k, w) :: l) = (k, v + w) :: l := by
  rw [insertAdd_cons, if_neg (lt_irrefl k), if_pos rfl]

theorem insertAdd_cons_gt {k k' : K} (h : k' < k) (v w : ℚ)
    (l : List (K × ℚ)) :
    insertAdd k v ((k', w) :: l) = (k', w) :: insertAdd k v l := by
  rw [insertAdd_cons, if_neg (asymm h), if_neg (ne_of_gt h)]

omit [LinearOrder K] in
theorem lookupQ_cons [DecidableEq K] (k k' : K) (v : ℚ) (l : List (K × ℚ)) :
    lookupQ k ((k', v) :: l) = if k = k' then some v else lookupQ k l := rfl

theorem insertAdd_snd_sum (k : K) (v : ℚ) (l : List (K × ℚ)) :
    ((insertAdd k v l).map Prod.snd).sum = v + (l.map Prod.snd).sum := by
  induction l with
  | nil => simp [insertAdd]
  | cons q l ih =>
    obtain ⟨k', w⟩ := q
    rcases lt_trichotomy k k' with h | h | h
    · rw [insertAdd_cons_lt h]
      simp
    · subst h
      rw [insertAdd_cons_eq]
      simp [add_assoc]
    · rw [insertAdd_cons_gt h]
      simp only [List.map_cons, List.sum_cons, ih]
      ring

theorem groupSum_snd_sum (key : α → K) (val : α → ℚ) (t : List α) :
    ((groupSum key val t).map Prod.snd).sum = (t.map val).sum := by
  induction t with
  | nil => simp [groupSum]
  | cons a t ih => simp [groupSum, insertAdd_snd_sum, ih]

theorem mem_keys_insertAdd {k'' k : K} {v : ℚ} {l : List (K × ℚ)} :
    k'' ∈ (insertAdd k v l).map Prod.fst ↔
      k'' = k ∨ k'' ∈ l.map Prod.fst := by
  induction l with
  | nil => simp [insertAdd]
  | cons q l ih =>
    obtain ⟨k', w⟩ := q
    rcases lt_trichotomy k k' with h | h | h
    · rw [insertAdd_cons_lt h]
      simp only [List.map_cons, List.mem_cons]
    · subst h
      rw [insertAdd_cons_eq]
      simp only [List.map_cons, List.mem_cons]
      tauto
    · rw [insertAdd_cons_gt h]
      simp only [List.map_cons, List.mem_cons, ih]
      tauto

theorem insertAdd_keys_sorted {k : K} {v : ℚ} {l : List (K × ℚ)}
    (h : (l.map Prod.fst).Pairwise (· < ·)) :
    ((insertAdd k v l).map Prod.fst).Pairwise (· < ·) := by
  induction l with
  | nil => simp [insertAdd]
  | cons q l ih =>
    obtain ⟨k', w⟩ := q
    simp only [List.map_cons, List.pairwise_cons] at h
    obtain ⟨hk', hl⟩ := h
    rcases lt_trichotomy k k' with h1 | h1 | h1
    · rw [insertAdd_cons_lt h1]
      simp only [List.map_cons, List.pairwise_cons]
      refine ⟨?_, hk', hl⟩
      intro x hx
      rcases List.mem_cons.mp hx with rfl | hx
      · exact h1
      · exact h1.trans (hk' x hx)
    · subst h1
      rw [insertAdd_cons_eq]
      simp only [List.map_cons, List.pairwise_cons]
      exact ⟨hk', hl⟩
    · rw [insertAdd_cons_gt h1]
      simp only [List.map_cons, List.pairwise_cons]
      refine ⟨?_, ih hl⟩
      intro x hx
      rcases mem_keys_insertAdd.mp hx with rfl | hx
      · exact h1
      · exact hk' x hx

theorem groupSum_keys_sorted (key : α → K) (val : α → ℚ) (t : List α) :
    ((groupSum key val t).map Prod.fst).Pairwise (· < ·) := by
  induction t with
  | nil => simp [groupSum]
  | cons a t ih => exact insertAdd_keys_sorted ih

theorem lookupQ_eq_none {k : K} {l : List (K × ℚ)}
    (h : k ∉ l.map Prod.fst) : lookupQ k l = none := by
  induction l with
  | nil => rfl
  | cons q l ih =>
    obtain ⟨k', v⟩ := q
    simp only [List.map_cons, List.mem_cons, not_or] at h
    rw [lookupQ_cons, if_neg h.1, ih h.2]

theorem mem_iff_lookupQ {k : K} {v : ℚ} {l : List (K × ℚ)}
    (h : (l.map Prod.fst).Pairwise (· < ·)) :
    (k, v) ∈ l ↔ lookupQ k l = some v := by
  induction l with
  | nil => simp [lookupQ]
  | cons q l ih =>
    obtain ⟨k', w⟩ := q
    simp only [List.map_cons, List.pairwise_cons] at h
    obtain ⟨hk', hl⟩ := h
    by_cases he : k = k'
    · subst he
      rw [lookupQ_cons, if_pos rfl, List.mem_cons]
      constructor
      · rintro (hh | hh)
        · rw [Option.some_inj]
          exact ((Prod.mk.injEq ..).mp hh).2.symm
        · exact absurd (hk' k (List.mem_map_of_mem Prod.fst hh)) (lt_irrefl k)
      · intro hv
        rw [Option.some_inj] at hv
        subst hv
        exact Or.inl rfl
    · rw [lookupQ_cons, if_neg he, List.mem_cons, ← ih hl]
      constructor
      · rintro (hh | hh)
        · exact absurd ((Prod.mk.injEq ..).mp hh).1 he
        · exact hh
      · exact Or.inr

theorem lookupQ_insertAdd_self {k : K} {v : ℚ} {l : List (K × ℚ)}
    (h : (l.map Prod.fst).Pairwise (· < ·)) :
    lookupQ k (insertAdd k v l) = some (v + ((lookupQ k l).getD 0)) := by
  induction l with
  | nil => simp [insertAdd, lookupQ]
  | cons q l ih =>
    obtain ⟨k', w⟩ := q
    simp only [List.map_cons, List.pairwise_cons] at h
    obtain ⟨hk', hl⟩ := h
    rcases lt_trichotomy k k' with h1 | h1 | h1
    · have hnot : k ∉ l.map Prod.fst := fun hm =>
        absurd (h1.trans (hk' k hm)) (lt_irrefl k)
      rw [insertAdd_cons_lt h1, lookupQ_cons, if_pos rfl, lookupQ_cons,
        if_neg (ne_of_lt h1), lookupQ_eq_none hnot]
      simp
    · subst h1
      rw [insertAdd_cons_eq, lookupQ_cons, if_pos rfl, lookupQ_cons,
        if_pos rfl]
      simp
    · rw [insertAdd_cons_gt h1, lookupQ_cons, if_neg (ne_of_gt h1),
        lookupQ_cons, if_neg (ne_of_gt h1), ih hl]

theorem lookupQ_insertAdd_ne {k'' k : K} {v : ℚ} {l : List (K × ℚ)}
    (hne : k'' ≠ k) :
    lookupQ k'' (insertAdd k v l) = lookupQ k'' l := by
  induction l with
  | nil => rw [insertAdd, lookupQ_cons, if_neg hne]
  | cons q l ih =>
    obtain ⟨k', w⟩ := q
    rcases lt_trichotomy k k' with h1 | h1 | h1
    · rw [insertAdd_cons_lt h1, lookupQ_cons, if_neg hne]
    · subst h1
      rw [insertAdd_cons_eq, lookupQ_cons, lookupQ_cons, if_neg hne,
        if_neg hne]
    · by_cases h3 : k'' = k'
      · rw [insertAdd_cons_gt h1, lookupQ_cons, if_pos h3, lookupQ_cons,
          if_pos h3]
      · rw [insertAdd_cons_gt h1, lookupQ_cons, if_neg h3, lookupQ_cons,
          if_neg h3, ih]

theorem matchSum_eq_zero {key : α → K} {val : α → ℚ} {k : K} {t : List α}
    (h : ¬ ∃ a ∈ t, key a = k) : matchSum key val k t = 0 := by
  have hnil : t.filter (fun a => decide (key a = k)) = [] := by
    rw [List.filter_eq_nil_iff]
    intro a ha
    simp only [decide_eq_true_eq]
    exact fun hk => h ⟨a, ha, hk⟩
  simp [matchSum, hnil]

theorem matchSum_cons {key : α → K} {val : α → ℚ} {k : K} {a : α}
    {t : List α} :
    matchSum key val k (a :: t) =
      (if key a = k then val a else 0) + matchSum key val k t := by
  by_cases hk : key a = k
  · simp [matchSum, List.filter_cons, hk]
  · simp [matchSum, List.filter_cons, hk]

theorem lookupQ_groupSum (key : α → K) (val : α → ℚ) (k : K) (t : List α) :
    lookupQ k (groupSum key val t) =
      if ∃ a ∈ t, key a = k then some (matchSum key val k t) else none := by
  induction t with
  | nil => simp [groupSum, lookupQ]
  | cons a t ih =>
    by_cases hk : key a = k
    · rw [groupSum, hk, lookupQ_insertAdd_self (groupSum_keys_sorted key val t),
        ih]
      have hex : ∃ b ∈ a :: t, key b = k := ⟨a, List.mem_cons_self a t, hk⟩
      rw [if_pos hex, matchSum_cons, if_pos hk]
      by_cases hex2 : ∃ b ∈ t, key b = k
      · rw [if_pos hex2]
        simp
      · rw [if_neg hex2, matchSum_eq_zero hex2]
        simp
    · rw [groupSum,
        lookupQ_insertAdd_ne (show k ≠ key a from fun h => hk h.symm), ih]
      have hiff : (∃ b ∈ a :: t, key b = k) ↔ ∃ b ∈ t, key b = k := by
        simp only [List.mem_cons]
        constructor
        · rintro ⟨b, rfl | hb, hkb⟩
          · exact absurd hkb hk
          · exact ⟨b, hb, hkb⟩
        · rintro ⟨b, hb, hkb⟩
          exact ⟨b, Or.inr hb, hkb⟩
      rw [matchSum_cons, if_neg hk, zero_add]
      by_cases hex2 : ∃ b ∈ t, key b = k
      · rw [if_pos hex2, if_pos (hiff.mpr hex2)]
      · rw [if_neg hex2, if_neg (fun hc => hex2 (hiff.mp hc))]

theorem mem_groupSum {key : α → K} {val : α → ℚ} {k : K} {v : ℚ}
    {t : List α} :
    (k, v) ∈ groupSum key val t ↔
      (∃ a ∈ t, key a = k) ∧ v = matchSum key val k t := by
  rw [mem_iff_lookupQ (groupSum_keys_sorted key val t),
    lookupQ_groupSum key val k t]
  by_cases hex : ∃ a ∈ t, key a = k
  · simp [hex, eq_comm]
  · simp [hex]

theorem mem_keys_groupSum {key : α → K} {val : α → ℚ} {k : K} {t : List α} :
    k ∈ (groupSum key val t).map Prod.fst ↔ ∃ a ∈ t, key a = k := by
  induction t with
  | nil => simp [groupSum]
  | cons a t ih =>
    rw [groupSum, mem_keys_insertAdd]
    simp only [List.mem_cons, ih]
    constructor
    · rintro (rfl | ⟨b, hb, hkb⟩)
      · exact ⟨a, Or.inl rfl, rfl⟩
      · exact ⟨b, Or.inr hb, hkb⟩
    · rintro ⟨b, rfl | hb, hkb⟩
      · exact Or.inl hkb.symm
      · exact Or.inr ⟨b, hb, hkb⟩

end GroupSumLemmas

/-! ### Lemmas about `sortDesc` and `seriesHead` -/

section SortLemmas

variable {K : Type}

theorem insertDesc_cons (p q : K × ℚ) (l : List (K × ℚ)) :
    insertDesc p (q :: l) =
      if q.2 < p.2 then p :: q :: l else q :: insertDesc p l := rfl

theorem insertDesc_perm (p : K × ℚ) (l : List (K × ℚ)) :
    (insertDesc p l).Perm (p :: l) := by
  induction l with
  | nil => exact List.Perm.refl _
  | cons q l ih =>
    rw [insertDesc_cons]
    by_cases h : q.2 < p.2
    · rw [if_pos h]
    · rw [if_neg h]
      exact (ih.cons q).trans (List.Perm.swap p q l)

theorem sortDesc_perm (l : List (K × ℚ)) : (sortDesc l).Perm l := by
  induction l with
  | nil => exact List.Perm.refl _
  | cons p l ih => exact (insertDesc_perm p (sortDesc l)).trans (ih.cons p)

theorem mem_sortDesc {p : K × ℚ} {l : List (K × ℚ)} :
    p ∈ sortDesc l ↔ p ∈ l :=
  (sortDesc_perm l).mem_iff

theorem sortDesc_snd_sum (l : List (K × ℚ)) :
    ((sortDesc l).map Prod.snd).sum = (l.map Prod.snd).sum :=
  ((sortDesc_perm l).map Prod.snd).sum_eq

theorem insertDesc_sorted {p : K × ℚ} {l : List (K × ℚ)}
    (h : l.Pairwise (fun a b => b.2 ≤ a.2)) :
    (insertDesc p l).Pairwise (fun a b => b.2 ≤ a.2) := by
  induction l with
  | nil => simp [insertDesc]
  | cons q l ih =>
    rw [List.pairwise_cons] at h
    obtain ⟨hq, hl⟩ := h
    rw [insertDesc_cons]
    by_cases hlt : q.2 < p.2
    · rw [if_pos hlt, List.pairwise_cons]
      refine ⟨?_, List.pairwise_cons.mpr ⟨hq, hl⟩⟩
      intro x hx
      rcases List.mem_cons.mp hx with rfl | hx
      · exact le_of_lt hlt
      · exact (hq x hx).trans (le_of_lt hlt)
    · rw [if_neg hlt, List.pairwise_cons]
      refine ⟨?_, ih hl⟩
      intro x hx
      rcases List.mem_cons.mp ((insertDesc_perm p l).mem_iff.mp hx) with
        rfl | hh
      · exact not_lt.mp hlt
      · exact hq x hh

theorem sortDesc_sorted (l : List (K × ℚ)) :
    (sortDesc l).Pairwise (fun a b => b.2 ≤ a.2) := by
  induction l with
  | nil => simp [sortDesc]
  | cons p l ih => exact insertDesc_sorted ih

theorem seriesHead_sublist (n : ℤ) (l : List (K × ℚ)) :
    (seriesHead n l).Sublist l := by
  unfold seriesHead
  split
  · exact List.take_sublist _ _
  · exact List.take_sublist _ _

theorem seriesHead_zero (l : List (K × ℚ)) : seriesHead 0 l = [] := by
  simp [seriesHead]

theorem seriesHead_all {n : ℤ} {l : List (K × ℚ)}
    (h : (l.length : ℤ) ≤ n) : seriesHead n l = l := by
  have h0 : 0 ≤ n := le_trans (Int.ofNat_nonneg _) h
  rw [seriesHead, if_pos h0, List.take_of_length_le]
  omega

theorem seriesHead_length_le {n : ℤ} (h : 0 ≤ n) (l : List (K × ℚ)) :
    (seriesHead n l).length ≤ n.toNat := by
  rw [seriesHead, if_pos h]
  simp [List.length_take]

end SortLemmas

/-! ### Lemmas about the anomaly detector's statistics -/

theorem meanQ_const {l : List ℚ} {c : ℚ} (hne : l ≠ [])
    (h : ∀ x ∈ l, x = c) : meanQ l = c := by
  have hlen : (l.length : ℚ) ≠ 0 :=
    Nat.cast_ne_zero.mpr fun h0 => hne (List.length_eq_zero.mp h0)
  rw [meanQ, List.sum_eq_card_nsmul l c h, nsmul_eq_mul, mul_comm,
    mul_div_assoc, div_self hlen, mul_one]

theorem svarQ_const {l : List ℚ} {c : ℚ} (h : ∀ x ∈ l, x = c) :
    svarQ l = 0 := by
  rcases List.eq_nil_or_concat l with rfl | _
  · simp [svarQ, meanQ]
  · have hne : l ≠ [] := by
      rintro rfl
      simp_all
    have hm : meanQ l = c := meanQ_const hne h
    have hz : (l.map (fun x => (x - meanQ l) ^ 2)).sum = 0 := by
      apply List.sum_eq_zero
      intro y hy
      obtain ⟨x, hx, rfl⟩ := List.mem_map.mp hy
      rw [h x hx, hm, sub_self]
      ring
    rw [svarQ, hz, zero_div]

theorem svarQ_nonneg (l : List ℚ) : 0 ≤ svarQ l := by
  cases l with
  | nil => simp [svarQ, meanQ]
  | cons x l =>
    apply div_nonneg
    · apply List.sum_nonneg
      intro y hy
      obtain ⟨a, _, rfl⟩ := List.mem_map.mp hy
      exact sq_nonneg _
    · simp only [List.length_cons]
      push_cast
      linarith

theorem zFlag_mono {m v z1 z2 x : ℚ} (hv : 0 ≤ v) (hz : z1 ≤ z2)
    (h : zFlag m v z2 x = true) : zFlag m v z1 x = true := by
  unfold zFlag at h ⊢
  by_cases h1 : 0 ≤ z1
  · have h2 : 0 ≤ z2 := le_trans h1 hz
    rw [if_pos h2, decide_eq_true_iff] at h
    rw [if_pos h1, decide_eq_true_iff]
    have hsq : z1 ^ 2 ≤ z2 ^ 2 := by nlinarith
    calc z1 ^ 2 * v ≤ z2 ^ 2 * v := mul_le_mul_of_nonneg_right hsq hv
      _ < (x - m) ^ 2 := h
  · rw [if_neg h1, decide_eq_true_iff]
    by_cases h2 : 0 ≤ z2
    · rw [if_pos h2, decide_eq_true_iff] at h
      by_contra hc
      push_neg at hc
      obtain ⟨hv0, hx⟩ := hc
      have hveq : v = 0 := le_antisymm hv0 hv
      rw [hveq, hx] at h
      simp at h
    · rw [if_neg h2, decide_eq_true_iff] at h
      exact h

theorem zFlag_iff_real (m v z x : ℚ) (hv : 0 ≤ v) :
    zFlag m v z x = true ↔
      (z : ℝ) * Real.sqrt (v : ℝ) < |(x : ℝ) - (m : ℝ)| := by
  have hvR : (0 : ℝ) ≤ (v : ℝ) := by exact_mod_cast hv
  unfold zFlag
  by_cases hz : 0 ≤ z
  · rw [if_pos hz, decide_eq_true_iff]
    have hzR : (0 : ℝ) ≤ (z : ℝ) := by exact_mod_cast hz
    have ha : (0 : ℝ) ≤ (z : ℝ) * Real.sqrt (v : ℝ) :=
      mul_nonneg hzR (Real.sqrt_nonneg _)
    have hb : (0 : ℝ) ≤ |(x : ℝ) - (m : ℝ)| := abs_nonneg _
    rw [show (z ^ 2 * v < (x - m) ^ 2) ↔
        ((z : ℝ) ^ 2 * (v : ℝ) < ((x : ℝ) - (m : ℝ)) ^ 2) by
      rw [← Rat.cast_lt (K := ℝ)]
      push_cast
      rfl]
    rw [mul_self_lt_mul_self_iff ha hb]
    have h1 : (z : ℝ) * Real.sqrt v * ((z : ℝ) * Real.sqrt v) =
        (z : ℝ) ^ 2 * (v : ℝ) := by
      have := Real.mul_self_sqrt hvR
      ring_nf
      nlinarith [Real.sq_sqrt hvR]
    have h2 : |(x : ℝ) - (m : ℝ)| * |(x : ℝ) - (m : ℝ)| =
        ((x : ℝ) - (m : ℝ)) ^ 2 := by
      rw [← abs_mul, abs_mul_self]
      ring
    rw [h1, h2]
  · rw [if_neg hz, decide_eq_true_iff]
    push_neg at hz
    have hzR : (z : ℝ) < 0 := by exact_mod_cast hz
    rcases eq_or_lt_of_le hv with hveq | hvpos
    · rw [← hveq]
      push_cast
      rw [Real.sqrt_zero, mul_zero]
      constructor
      · rintro (hh | hh)
        · exact absurd hh (lt_irrefl 0)
        · rw [abs_pos, sub_ne_zero]
          exact_mod_cast hh
      · intro hh
        rw [abs_pos, sub_ne_zero] at hh
        exact Or.inr (by exact_mod_cast hh)
    · have hsq : 0 < Real.sqrt v := Real.sqrt_pos.mpr (by exact_mod_cast hvpos)
      have : (z : ℝ) * Real.sqrt v < 0 := mul_neg_of_neg_of_pos hzR hsq
      exact iff_of_true (Or.inl hvpos) (lt_of_lt_of_le this (abs_nonneg _))

/-! ### Helper lemmas for the claim theorems -/

theorem detect_anomalies_fst (df : Table) (z : ℚ) :
    (detect_anomalies df z).1 =
      (daily_totals df).filter
        (fun p => zFlag (meanQ ((daily_totals df).map Prod.snd))
          (svarQ ((daily_totals df).map Prod.snd)) z p.2) := rfl

theorem detect_anomalies_snd (df : Table) (z : ℚ) :
    (detect_anomalies df z).2 = daily_totals df := rfl

theorem seriesHead_nil {K : Type} (n : ℤ) :
    seriesHead n ([] : List (K × ℚ)) = [] := by
  unfold seriesHead
  split <;> simp

theorem zFlag_self (m z : ℚ) : zFlag m 0 z m = false := by
  unfold zFlag
  split <;> simp

theorem detect_no_anomaly_of_const {df : Table} {z : ℚ}
    (h : ∀ p ∈ daily_totals df, ∀ q ∈ daily_totals df, p.2 = q.2) :
    (detect_anomalies df z).1 = [] := by
  rw [detect_anomalies_fst]
  cases hd : daily_totals df with
  | nil => rfl
  | cons p0 rest =>
    have hp0 : p0 ∈ daily_totals df := hd ▸ List.mem_cons_self p0 rest
    have hval : ∀ y ∈ (daily_totals df).map Prod.snd, y = p0.2 := by
      intro y hy
      obtain ⟨q, hq, rfl⟩ := List.mem_map.mp hy
      exact h q hq p0 hp0
    have hne : (daily_totals df).map Prod.snd ≠ [] := by
      rw [hd]
      simp
    have hm : meanQ ((daily_totals df).map Prod.snd) = p0.2 :=
      meanQ_const hne hval
    have hv : svarQ ((daily_totals df).map Prod.snd) = 0 := svarQ_const hval
    rw [← hd, List.filter_eq_nil_iff]
    intro p hp
    rw [hm, hv, h p hp p0 hp0, zFlag_self]
    simp

theorem two_point_no_flag (a b x : ℚ) (hx : x = a ∨ x = b) :
    zFlag (meanQ [a, b]) (svarQ [a, b]) (5 / 2) x = false := by
  have hm : meanQ [a, b] = (a + b) / 2 := by
    simp [meanQ]
  have hv : svarQ [a, b] =
      (a - (a + b) / 2) ^ 2 + (b - (a + b) / 2) ^ 2 := by
    rw [svarQ, hm]
    simp
    norm_num
  rw [zFlag, if_pos (by norm_num : (0 : ℚ) ≤ 5 / 2)]
  apply decide_eq_false
  rw [hm, hv]
  intro hlt
  rcases hx with h | h <;> rw [h] at hlt <;> nlinarith [sq_nonneg (a - b)]

theorem length_filter_station (df : Table) (s : ℕ) :
    matchSum (fun a => a) (fun _ => (1 : ℚ)) s (stationStream df) =
      ((df.filter (fun r => decide (r.entry_station_id = s))).length
        + (df.filter (fun r => decide (r.exit_station_id = s))).length : ℕ) := by
  have hone : ∀ (l : List ℕ), (l.map (fun _ => (1 : ℚ))).sum = l.length := by
    intro l
    rw [List.sum_eq_card_nsmul _ (1 : ℚ)]
    · simp
    · intro x hx
      obtain ⟨a, _, rfl⟩ := List.mem_map.mp hx
      rfl
  rw [matchSum, hone]
  rw [stationStream, List.filter_append, List.length_append]
  have hcnt : ∀ (f : Record → ℕ),
      ((df.map f).filter (fun a => decide (a = s))).length =
        (df.filter (fun r => decide (f r = s))).length := by
    intro f
    rw [← List.countP_eq_length_filter, ← List.countP_eq_length_filter,
      List.countP_map]
    rfl
  rw [hcnt (·.entry_station_id), hcnt (·.exit_station_id)]

theorem mem_stationStream {df : Table} {s : ℕ} :
    (∃ a ∈ stationStream df, a = s) ↔
      ∃ r ∈ df, r.entry_station_id = s ∨ r.exit_station_id = s := by
  constructor
  · rintro ⟨a, ha, rfl⟩
    rcases List.mem_append.mp ha with hh | hh
    · obtain ⟨r, hr, hra⟩ := List.mem_map.mp hh
      exact ⟨r, hr, Or.inl hra⟩
    · obtain ⟨r, hr, hra⟩ := List.mem_map.mp hh
      exact ⟨r, hr, Or.inr hra⟩
  · rintro ⟨r, hr, hra | hra⟩
    · exact ⟨s, List.mem_append.mpr
        (Or.inl (hra ▸ List.mem_map_of_mem _ hr)), rfl⟩
    · exact ⟨s, List.mem_append.mpr
        (Or.inr (hra ▸ List.mem_map_of_mem _ hr)), rfl⟩

/-! ### Lemmas about `load_data` -/

theorem load_data_error_iff (rows : List RawRow) :
    load_data rows = .error .unparseableTimestamp ↔
      ∃ r ∈ rows, r.timestampRaw = none := by
  induction rows with
  | nil => simp [load_data]
  | cons r rs ih =>
    cases hr : r.timestampRaw with
    | none =>
      constructor
      · intro _
        exact ⟨r, List.mem_cons_self r rs, hr⟩
      · intro _
        simp [load_data, hr]
    | some ts =>
      cases hload : load_data rs with
      | error e =>
        cases e
        constructor
        · intro _
          obtain ⟨r', hr', hn⟩ := ih.mp hload
          exact ⟨r', List.mem_cons_of_mem r hr', hn⟩
        · intro _
          simp [load_data, hr, hload]
      | ok tbl =>
        constructor
        · intro hc
          simp only [load_data, hr, hload] at hc
          cases hc
        · rintro ⟨r', hmem, hn⟩
          rcases List.mem_cons.mp hmem with rfl | hmem
          · rw [hr] at hn
            cases hn
          · have hcontra := ih.mpr ⟨r', hmem, hn⟩
            rw [hload] at hcontra
            cases hcontra

theorem load_data_ok_of_parsed {rows : List RawRow}
    (h : ∀ r ∈ rows, r.timestampRaw ≠ none) :
    load_data rows = .ok (rows.map rowRecord) := by
  induction rows with
  | nil => simp [load_data]
  | cons r rs ih =>
    cases hr : r.timestampRaw with
    | none => exact absurd hr (h r (List.mem_cons_self r rs))
    | some ts =>
      have hrec : load_data rs = .ok (rs.map rowRecord) :=
        ih fun r' hr' => h r' (List.mem_cons_of_mem r hr')
      simp only [load_data, hr, hrec, List.map_cons]
      rw [show rowRecord r = r.toRecord ts by rw [rowRecord, hr]; rfl]

theorem load_data_ok_shape {rows : List RawRow} {tbl : Table}
    (h : load_data rows = .ok tbl) : tbl = rows.map rowRecord := by
  by_cases hall : ∀ r ∈ rows, r.timestampRaw ≠ none
  · rw [load_data_ok_of_parsed hall] at h
    exact (Except.ok.injEq .. ▸ h).symm
  · push_neg at hall
    obtain ⟨r, hmem, hn⟩ := hall
    rw [(load_data_error_iff rows).mpr ⟨r, hmem, hn⟩] at h
    exact absurd h (by simp)

/-! ### The claims -/

/-- Claim C1: `detect_anomalies(table, z_thresh)` groups `passenger_count`
by the calendar date of `timestamp` into `daily_totals`, an ordered mapping
ascending by date, and returns `(anomalous_days, daily_totals)` where a
date `d` with total `t` is anomalous iff `abs(t - mean) > z_thresh * std`,
with `mean` the sample mean and `std` the unbiased (N-1) sample standard
deviation of the daily totals; `anomalous_days` is a sub-mapping of
`daily_totals` in the same ascending order. -/
theorem claim_C1 (df : Table) (z : ℚ) (d : Date) (x : ℚ) :
    (detect_anomalies df z).2 = daily_totals df
    ∧ ((daily_totals df).map Prod.fst).Pairwise (· < ·)
    ∧ ((d, x) ∈ daily_totals df ↔
        (∃ r ∈ df, r.timestamp.date = d) ∧
          x = matchSum (fun r => r.timestamp.date) (·.passenger_count) d df)
    ∧ ((detect_anomalies df z).1).Sublist (daily_totals df)
    ∧ ((d, x) ∈ (detect_anomalies df z).1 ↔
        (d, x) ∈ daily_totals df ∧
          (z : ℝ) * Real.sqrt ((svarQ ((daily_totals df).map Prod.snd) : ℚ) : ℝ)
            < |(x : ℝ) - ((meanQ ((daily_totals df).map Prod.snd) : ℚ) : ℝ)|) := by
  refine ⟨rfl, groupSum_keys_sorted _ _ _, mem_groupSum, ?_, ?_⟩
  · rw [detect_anomalies_fst]
    exact List.filter_sublist _
  · rw [detect_anomalies_fst, List.mem_filter]
    exact and_congr_right fun _ =>
      zFlag_iff_real _ _ z x (svarQ_nonneg ((daily_totals df).map Prod.snd))

/-- Claim C2: the filter with both selections empty returns the records
as-is; with both non-empty a record is retained iff its region is selected
and its route is selected (logical AND); with only regions selected the
result is a sub-list of the table all of whose records have a selected
region.  (The embedding is pure, so the input table is unchanged.) -/
theorem claim_C2 (df : Table) (regions routes : List ℕ) :
    apply_filters df [] [] = df
    ∧ (regions ≠ [] → routes ≠ [] → ∀ r : Record,
        r ∈ apply_filters df regions routes ↔
          r ∈ df ∧ r.region ∈ regions ∧ r.route_id ∈ routes)
    ∧ (regions ≠ [] →
        (apply_filters df regions []).Sublist df
        ∧ ∀ r ∈ apply_filters df regions [], r.region ∈ regions) := by
  refine ⟨rfl, ?_, ?_⟩
  · intro h1 h2 r
    have hsh : apply_filters df regions routes =
        (df.filter (fun r => decide (r.region ∈ regions))).filter
          (fun r => decide (r.route_id ∈ routes)) := by
      simp only [apply_filters]
      rw [if_neg h1, if_neg h2]
    rw [hsh, List.mem_filter, List.mem_filter]
    simp [and_assoc]
  · intro h1
    have hsh : apply_filters df regions [] =
        df.filter (fun r => decide (r.region ∈ regions)) := by
      simp only [apply_filters]
      rw [if_neg h1, if_pos trivial]
    rw [hsh]
    refine ⟨List.filter_sublist _, ?_⟩
    intro r hr
    have := (List.mem_filter.mp hr).2
    simpa using this

/-- Claim C3: `top_routes(table, n)` sums `passenger_count` grouped by
`route_id`, sorts descending by the sum and truncates to the first `n`
entries (the definition's default for `n` is 5); on the records
`[(R1,10),(R2,50),(R1,5)]` with `n = 2` it returns `[(R2,50),(R1,15)]`. -/
theorem claim_C3 (df : Table) (n : ℤ) (k : ℕ) (v : ℚ) :
    top_routes tableRoutes 2 = [(2, 50), (1, 15)]
    ∧ ((k, v) ∈ routeRanking df ↔
        (∃ r ∈ df, r.route_id = k) ∧
          v = matchSum (·.route_id) (·.passenger_count) k df)
    ∧ (routeRanking df).Pairwise (fun a b => b.2 ≤ a.2)
    ∧ (top_routes df n).Sublist (routeRanking df)
    ∧ (top_routes df n).Pairwise (fun a b => b.2 ≤ a.2)
    ∧ (0 ≤ n → (top_routes df n).length ≤ n.toNat) := by
  refine ⟨by with_unfolding_all rfl, ?_, sortDesc_sorted _,
    seriesHead_sublist n _, ?_, fun h => seriesHead_length_le h _⟩
  · rw [routeRanking, mem_sortDesc]
    exact mem_groupSum
  · exact (sortDesc_sorted _).sublist (seriesHead_sublist n _)

/-- Witness for C3 at a concrete input: the truncation bound at `n = 2`. -/
theorem claim_C3_witness :
    (0 : ℤ) ≤ 2 ∧ (top_routes tableRoutes 2).length ≤ (2 : ℤ).toNat :=
  ⟨by norm_num, (claim_C3 tableRoutes 2 1 0).2.2.2.2.2 (by norm_num)⟩

/-- Claim C4: in `top_transfer_points` every record contributes one
occurrence for its entry station and one for its exit station, so a
station's count is the number of records entering there plus the number
exiting there; a record with equal entry and exit contributes 2; the
result is the stations ranked by descending count, truncated to `n`.
A single record with entry = exit = S1 gives S1 the count 2. -/
theorem claim_C4 (df : Table) (s : ℕ) (c : ℚ) (n : ℤ) :
    ((s, c) ∈ transferCounts df ↔
      (∃ r ∈ df, r.entry_station_id = s ∨ r.exit_station_id = s) ∧
        c = ((df.filter (fun r => decide (r.entry_station_id = s))).length
              + (df.filter (fun r => decide (r.exit_station_id = s))).length
              : ℕ))
    ∧ (transferCounts df).Pairwise (fun a b => b.2 ≤ a.2)
    ∧ (top_transfer_points df n).Sublist (transferCounts df)
    ∧ (top_transfer_points df n).Pairwise (fun a b => b.2 ≤ a.2)
    ∧ top_transfer_points tableLoop 5 = [(7, 2)] := by
  refine ⟨?_, sortDesc_sorted _, seriesHead_sublist n _,
    (sortDesc_sorted _).sublist (seriesHead_sublist n _),
    by with_unfolding_all rfl⟩
  rw [transferCounts, mem_sortDesc, mem_groupSum]
  rw [length_filter_station df s]
  exact and_congr_left fun _ => mem_stationStream

/-- Witness for C2 at a concrete table and non-empty selections. -/
theorem claim_C2_witness :
    ([1] : List ℕ) ≠ [] ∧
      (recA ∈ apply_filters tableRegions [1] [1] ↔
        recA ∈ tableRegions ∧ recA.region ∈ ([1] : List ℕ) ∧
          recA.route_id ∈ ([1] : List ℕ)) :=
  ⟨by simp, (claim_C2 tableRegions [1] [1]).2.1 (by simp) (by simp) recA⟩

/-- Counterexample to claim C5 as stated: with `n = 0` or `n = -1` both
top-N queries return an ordinary (possibly truncated or empty) series —
pandas `head` semantics — and no `InvalidParameterError` is raised
anywhere in `top_routes`/`top_transfer_points`. -/
theorem claim_C5_counterexample :
    top_routes tableRoutes 0 = []
    ∧ top_transfer_points tableRoutes 0 = []
    ∧ top_routes tableRoutes (-1) = [(2, 50)] :=
  ⟨by with_unfolding_all rfl, by with_unfolding_all rfl,
    by with_unfolding_all rfl⟩

/-- Claim C5, amended: for `n ≤ 0` the top-N queries do not fail; they
apply pandas `head(n)` to the ranking, so `n = 0` yields the empty
sequence and negative `n` yields all but the last `|n|` entries. -/
theorem claim_C5 (df : Table) (n : ℤ) (h : n ≤ 0) :
    (n = 0 → top_routes df n = [] ∧ top_transfer_points df n = [])
    ∧ (n < 0 →
        top_routes df n =
          (routeRanking df).take ((routeRanking df).length - (-n).toNat)
        ∧ top_transfer_points df n =
          (transferCounts df).take
            ((transferCounts df).length - (-n).toNat)) := by
  constructor
  · rintro rfl
    exact ⟨seriesHead_zero _, seriesHead_zero _⟩
  · intro hneg
    constructor
    · show seriesHead n (routeRanking df) = _
      rw [seriesHead, if_neg (not_le.mpr hneg)]
    · show seriesHead n (transferCounts df) = _
      rw [seriesHead, if_neg (not_le.mpr hneg)]

/-- Witness for the amended C5 at `n = 0`. -/
theorem claim_C5_witness :
    (0 : ℤ) ≤ 0 ∧ top_routes tableRoutes 0 = [] :=
  ⟨le_refl 0, ((claim_C5 tableRoutes 0 (le_refl 0)).1 rfl).1⟩

/-- Claim C6: every aggregator on the empty table returns an empty
mapping/sequence (both components, for `detect_anomalies`), and
`detect_anomalies` flags no day when the records span a single calendar
day or when all daily totals coincide, for every threshold. -/
theorem claim_C6 (df : Table) (z : ℚ) (n : ℤ) :
    hourly_analysis [] = []
    ∧ daily_analysis [] = []
    ∧ monthly_analysis [] = []
    ∧ yearly_analysis [] = []
    ∧ top_routes [] n = []
    ∧ top_transfer_points [] n = []
    ∧ detect_anomalies [] z = ([], [])
    ∧ region_passenger_trends [] = []
    ∧ region_revenue_trends [] = []
    ∧ ((daily_totals df).length = 1 → (detect_anomalies df z).1 = [])
    ∧ ((∀ p ∈ daily_totals df, ∀ q ∈ daily_totals df, p.2 = q.2) →
        (detect_anomalies df z).1 = []) := by
  refine ⟨rfl, rfl, rfl, rfl, ?_, ?_, rfl, rfl, rfl, ?_,
    fun h => detect_no_anomaly_of_const h⟩
  · show seriesHead n (routeRanking []) = []
    rw [show routeRanking [] = [] from rfl]
    exact seriesHead_nil n
  · show seriesHead n (transferCounts []) = []
    rw [show transferCounts [] = [] from rfl]
    exact seriesHead_nil n
  · intro hlen
    obtain ⟨p0, hp0⟩ := List.length_eq_one.mp hlen
    apply detect_no_anomaly_of_const
    intro p hp q hq
    rw [hp0, List.mem_singleton] at hp hq
    rw [hp, hq]

/-- Witness for C6 at a concrete one-day table. -/
theorem claim_C6_witness :
    (daily_totals tableOneDay).length = 1 ∧
      (detect_anomalies tableOneDay 3).1 = [] := by
  have h : (daily_totals tableOneDay).length = 1 := by
    with_unfolding_all rfl
  exact ⟨h, ((claim_C6 tableOneDay 3 5).2.2.2.2.2.2.2.2.2.1) h⟩

/-- Claim C7: raising the threshold never enlarges the anomaly set — for
`z1 ≤ z2` every day flagged at `z2` is flagged at `z1`. -/
theorem claim_C7 (df : Table) (z1 z2 : ℚ) (h : z1 ≤ z2) (p : Date × ℚ)
    (hp : p ∈ (detect_anomalies df z2).1) :
    p ∈ (detect_anomalies df z1).1 := by
  rw [detect_anomalies_fst] at hp ⊢
  rw [List.mem_filter] at hp ⊢
  exact ⟨hp.1, zFlag_mono (svarQ_nonneg _) h hp.2⟩

/-- Witness for C7 on the spec's 100/105/500 table with `0 ≤ 1/10`. -/
theorem claim_C7_witness :
    ((0 : ℚ) ≤ 1 / 10) ∧
      (toLex ((2024 : ℤ), toLex ((1 : ℕ), (3 : ℕ))), (500 : ℚ)) ∈
        (detect_anomalies tableAnomaly 0).1 := by
  refine ⟨by norm_num, claim_C7 tableAnomaly 0 (1 / 10) (by norm_num) _ ?_⟩
  have hres : (detect_anomalies tableAnomaly (1 / 10)).1 =
      [(toLex ((2024 : ℤ), toLex ((1 : ℕ), (1 : ℕ))), (100 : ℚ)),
       (toLex ((2024 : ℤ), toLex ((1 : ℕ), (2 : ℕ))), (105 : ℚ)),
       (toLex ((2024 : ℤ), toLex ((1 : ℕ), (3 : ℕ))), (500 : ℚ))] := by
    with_unfolding_all rfl
  rw [hres]
  simp

/-- Claim C8: sum conservation — for every grouping aggregator the group
totals sum to the column total over the whole table; for `top_routes` this
needs `n` at least the number of distinct routes (the ranking's length). -/
theorem claim_C8 (df : Table) (n : ℤ)
    (hn : ((routeRanking df).length : ℤ) ≤ n) :
    ((hourly_analysis df).map Prod.snd).sum =
        (df.map (·.passenger_count)).sum
    ∧ ((daily_analysis df).map Prod.snd).sum =
        (df.map (·.passenger_count)).sum
    ∧ ((monthly_analysis df).map Prod.snd).sum =
        (df.map (·.passenger_count)).sum
    ∧ ((yearly_analysis df).map Prod.snd).sum =
        (df.map (·.passenger_count)).sum
    ∧ ((top_routes df n).map Prod.snd).sum =
        (df.map (·.passenger_count)).sum
    ∧ ((region_passenger_trends df).map Prod.snd).sum =
        (df.map (·.passenger_count)).sum
    ∧ ((region_revenue_trends df).map Prod.snd).sum =
        (df.map (·.total_fees)).sum
    ∧ ((daily_totals df).map Prod.snd).sum =
        (df.map (·.passenger_count)).sum := by
  refine ⟨groupSum_snd_sum _ _ df, groupSum_snd_sum _ _ df,
    groupSum_snd_sum _ _ df, groupSum_snd_sum _ _ df, ?_, ?_, ?_,
    groupSum_snd_sum _ _ df⟩
  · rw [show top_routes df n = routeRanking df from seriesHead_all hn,
      routeRanking, sortDesc_snd_sum, groupSum_snd_sum]
  · rw [region_passenger_trends, sortDesc_snd_sum, groupSum_snd_sum]
  · rw [region_revenue_trends, sortDesc_snd_sum, groupSum_snd_sum]

/-- Witness for C8 on the route example table with `n = 5 ≥ 2` routes. -/
theorem claim_C8_witness :
    ((routeRanking tableRoutes).length : ℤ) ≤ 5 ∧
      ((top_routes tableRoutes 5).map Prod.snd).sum =
        (tableRoutes.map (·.passenger_count)).sum := by
  have hlen : (routeRanking tableRoutes).length = 2 := by
    with_unfolding_all rfl
  have hn : ((routeRanking tableRoutes).length : ℤ) ≤ 5 := by
    rw [hlen]
    norm_num
  exact ⟨hn, (claim_C8 tableRoutes 5 hn).2.2.2.2.1⟩

/-- Claim C9: the loader is strict on the primary timestamp — any
unparseable value aborts the load with `SchemaError` and no partial table
— and lenient on `departure_time`/`arrival_time`, whose unparseable or
missing values are kept as explicit absences in the loaded records. -/
theorem claim_C9 (rows : List RawRow) (tbl : Table) :
    (load_data rows = Except.error SchemaError.unparseableTimestamp ↔
      ∃ r ∈ rows, r.timestampRaw = none)
    ∧ (load_data rows = Except.ok tbl → tbl = rows.map rowRecord)
    ∧ (∀ r : RawRow, (rowRecord r).departure_time = r.departureRaw ∧
        (rowRecord r).arrival_time = r.arrivalRaw) :=
  ⟨load_data_error_iff rows, load_data_ok_shape, fun _ => ⟨rfl, rfl⟩⟩

/-- Witness for C9: a single row with unparseable primary timestamp makes
the whole load fail. -/
theorem claim_C9_witness :
    load_data [mkRawRow none none none] =
      Except.error SchemaError.unparseableTimestamp :=
  (claim_C9 [mkRawRow none none none] []).1.mpr
    ⟨mkRawRow none none none, List.mem_cons_self _ _, rfl⟩

/-- Claim C10: a table spanning exactly two distinct calendar dates never
has an anomalous day at the default threshold `z_thresh = 2.5`: each of
the two totals deviates from the mean by `std / sqrt 2 < 2.5 * std`. -/
theorem claim_C10 (df : Table) (h : (daily_totals df).length = 2) :
    (detect_anomalies df).1 = [] := by
  obtain ⟨p, q, hd⟩ := List.length_eq_two.mp h
  obtain ⟨d1, a⟩ := p
  obtain ⟨d2, b⟩ := q
  rw [detect_anomalies_fst, hd]
  simp only [List.map_cons, List.map_nil]
  rw [List.filter_eq_nil_iff]
  intro x hx
  have hv : x.2 = a ∨ x.2 = b := by
    rcases List.mem_cons.mp hx with rfl | hx2
    · exact Or.inl rfl
    · rw [List.mem_singleton] at hx2
      rw [hx2]
      exact Or.inr rfl
  simp [two_point_no_flag a b x.2 hv]

/-- Witness for C10 at a concrete two-day table. -/
theorem claim_C10_witness :
    (daily_totals tableTwoDays).length = 2 ∧
      (detect_anomalies tableTwoDays).1 = [] := by
  have h : (daily_totals tableTwoDays).length = 2 := by
    with_unfolding_all rfl
  exact ⟨h, claim_C10 tableTwoDays h⟩

end PassengerDash
